import Mathlib

/-!
# Verification of the task-manager service core

A shallow embedding of the task-manager service (Go, `taskmanager` module):
the domain model (`internal/model`), the DTO conversions (`internal/model/DTOs`),
the repository over the relational store plus the redis list cache
(`internal/repositories/task_repository.go`), and the business-logic service
(`internal/service`).

Modelling conventions:
* `time.Time` instants are modelled as `Int` (an absolute instant; `UTC()` does
  not change the instant, so it is the identity here).
* `sql.NullString` / `sql.NullTime` are structures with a payload and a `valid`
  flag, exactly as in Go; the Go zero values are `⟨"", false⟩` / `⟨0, false⟩`.
* The relational store is a list of rows; SQL statements are translated
  clause by clause (`WHERE`, `ORDER BY ... DESC`, `OFFSET`, `LIMIT`).
* The redis cache is an association list from key strings to cached JSON
  values; SET is an upsert, GET a lookup, and the `SCAN`+`DEL` over the
  pattern `tasks:list:*` removes every key with that prefix.  The 60 second
  expiry is not modelled (no claim mentions the expiry window).
* Database connectivity errors and redis errors are not modelled: the store
  always answers, which is the execution path every claim speaks about.
* `err`s distinguished by the Go code (`ErrInvalidInput`, `ErrNotFound`) are
  an explicit error type; fallible operations return `Except`.
-/

namespace TaskManager

/-- `sql.NullString`: a string payload and a validity flag.  The Go zero
value is `⟨"", false⟩`; `Valid = false` renders as SQL/JSON null. -/
structure NullString where
  string : String
  valid : Bool
deriving DecidableEq, Repr

/-- `sql.NullTime`: an instant payload and a validity flag. -/
structure NullTime where
  time : Int
  valid : Bool
deriving DecidableEq, Repr

/-- `model.Task` (internal/model): DB columns `id, title, description,
assignee, completed, due_date, created_at, updated_at`. -/
structure Task where
  id : String
  title : String
  description : NullString
  assignee : NullString
  completed : Bool
  dueDate : NullTime
  createdAt : Int
  updatedAt : Int
deriving DecidableEq, Repr

/-- The Go zero value of `model.Task`. -/
def Task.zero : Task :=
  { id := "", title := "", description := ⟨"", false⟩, assignee := ⟨"", false⟩,
    completed := false, dueDate := ⟨0, false⟩, createdAt := 0, updatedAt := 0 }

/-- `Task.SetDescription`: set the description value and mark it valid. -/
def Task.setDescription (t : Task) (s : String) : Task :=
  { t with description := ⟨s, true⟩ }

/-- `Task.ClearDescription`: clear the description (set it to null). -/
def Task.clearDescription (t : Task) : Task :=
  { t with description := ⟨"", false⟩ }

/-- `Task.SetAssignee`: set the assignee value and mark it valid. -/
def Task.setAssignee (t : Task) (s : String) : Task :=
  { t with assignee := ⟨s, true⟩ }

/-- `Task.ClearAssignee`: clear the assignee (set it to null). -/
def Task.clearAssignee (t : Task) : Task :=
  { t with assignee := ⟨"", false⟩ }

/-- `Task.SetDueDate`: set the due date, stored in UTC (the identity on the
instant), and mark it valid. -/
def Task.setDueDate (t : Task) (dt : Int) : Task :=
  { t with dueDate := ⟨dt, true⟩ }

/-- `Task.ClearDueDate`: clear the due date (set it to null). -/
def Task.clearDueDate (t : Task) : Task :=
  { t with dueDate := ⟨0, false⟩ }

/-- `dtos.CreateTaskDTO`: `title` required, the rest optional pointers.
There are no timestamp fields, so a create request cannot carry them. -/
structure CreateTaskDTO where
  title : String
  description : Option String
  assignee : Option String
  dueDate : Option Int
deriving DecidableEq, Repr

/-- `CreateTaskDTO.ToModel`: convert the DTO into a domain `Task` starting
from the zero value. -/
def CreateTaskDTO.toModel (d : CreateTaskDTO) : Task :=
  let t := { Task.zero with title := d.title }
  let t := match d.description with
    | none => t
    | some s => t.setDescription s
  let t := match d.assignee with
    | none => t
    | some s => if s = "" then t else t.setAssignee s
  match d.dueDate with
  | none => t
  | some dt => t.setDueDate dt

/-- `dtos.UpdateTaskDTO`: all fields optional pointers; no timestamp fields,
so an update request cannot carry them. -/
structure UpdateTaskDTO where
  title : Option String
  description : Option String
  assignee : Option String
  completed : Option Bool
  dueDate : Option Int
deriving DecidableEq, Repr

/-- `UpdateTaskDTO.ToModel`: only non-nil DTO fields are applied onto a zero
task carrying the ID.  A present empty `description` routes the clear,
a present non-empty one the set; a present `assignee` is applied only when
non-empty (no clear path); `completed` and `due_date` are applied when
present. -/
def UpdateTaskDTO.toModel (d : UpdateTaskDTO) (id : String) : Task :=
  let t := { Task.zero with id := id }
  let t := match d.title with
    | none => t
    | some s => { t with title := s }
  let t := match d.description with
    | none => t
    | some s => if s = "" then t.clearDescription else t.setDescription s
  let t := match d.assignee with
    | none => t
    | some s => if s = "" then t else t.setAssignee s
  let t := match d.completed with
    | none => t
    | some b => { t with completed := b }
  match d.dueDate with
  | none => t
  | some dt => t.setDueDate dt

/-- `unicode.IsSpace` as used by `strings.TrimSpace`, restricted to the
Latin-1 range the service's validation claims exercise (the White_Space
code points above U+00A0 are omitted). -/
def goIsSpace (c : Char) : Bool :=
  c == ' ' || c == '\t' || c == '\n' || c == '\x0b' || c == '\x0c' ||
    c == '\r' || c == '\x85' || c == '\xa0'

/-- `strings.TrimSpace`: drop leading and trailing whitespace. -/
def trimSpace (s : String) : String :=
  ⟨((s.data.dropWhile goIsSpace).reverse.dropWhile goIsSpace).reverse⟩

/-- The error values the repository and service surface:
`repositories.ErrNotFound` and `service.ErrInvalidInput`. -/
inductive Err where
  | invalidInput
  | notFound
deriving DecidableEq, Repr

/-- Modelled from the spec: the JSON values exchanged with the cache.  The
repository caches `json.Marshal` output and reads it back with
`json.Unmarshal`; the byte-level rendering is abstracted as this value tree.
Time instants are abstracted as their underlying `Int` instant (the model's
documented RFC3339 rendering of an instant is injective, which is all the
cache round trip uses). -/
inductive Json where
  | null
  | bool (b : Bool)
  | num (n : Int)
  | str (s : String)
  | arr (items : List Json)
  | obj (fields : List (String × Json))

/-- Modelled from the spec: `MarshalJSON` renders a nullable string as the
plain string, or null when not valid (the model file documents this
rendering; its method bodies are not part of the sources). -/
def NullString.toJson : NullString → Json
  | ⟨s, true⟩ => .str s
  | ⟨_, false⟩ => .null

/-- Modelled from the spec: `UnmarshalJSON` reads null as an invalid
`NullString` (Go zero payload) and a string as a valid one. -/
def NullString.fromJson : Json → Option NullString
  | .null => some ⟨"", false⟩
  | .str s => some ⟨s, true⟩
  | _ => none

/-- Modelled from the spec: `MarshalJSON` renders a nullable time as the
(RFC3339) instant, or null when not valid. -/
def NullTime.toJson : NullTime → Json
  | ⟨t, true⟩ => .num t
  | ⟨_, false⟩ => .null

/-- Modelled from the spec: `UnmarshalJSON` reads null as an invalid
`NullTime` (Go zero payload) and an instant as a valid one. -/
def NullTime.fromJson : Json → Option NullTime
  | .null => some ⟨0, false⟩
  | .num t => some ⟨t, true⟩
  | _ => none

/-- Modelled from the spec: `json.Marshal` of a `model.Task`, rendering the
nullable DB types as simple JSON values or null, per the model file's
documentation of its (absent) marshaler bodies. -/
def Task.toJson (t : Task) : Json :=
  .obj [("id", .str t.id), ("title", .str t.title),
        ("description", t.description.toJson), ("assignee", t.assignee.toJson),
        ("completed", .bool t.completed), ("due_date", t.dueDate.toJson),
        ("created_at", .num t.createdAt), ("updated_at", .num t.updatedAt)]

/-- Modelled from the spec: `json.Unmarshal` into a `model.Task`, inverse of
the rendering above; any other shape is a decode error. -/
def Task.fromJson : Json → Option Task
  | .obj [("id", .str id), ("title", .str title), ("description", dj),
          ("assignee", aj), ("completed", .bool c), ("due_date", ddj),
          ("created_at", .num ca), ("updated_at", .num ua)] =>
    match NullString.fromJson dj, NullString.fromJson aj, NullTime.fromJson ddj with
    | some d, some a, some dd =>
      some ⟨id, title, d, a, c, dd, ca, ua⟩
    | _, _, _ => none
  | _ => none

/-- `json.Marshal(tasks)`: a JSON array of task objects. -/
def encodeTasks (ts : List Task) : Json :=
  .arr (ts.map Task.toJson)

/-- `json.Unmarshal` into `[]model.Task`. -/
def decodeTasks : Json → Option (List Task)
  | .arr js => js.mapM Task.fromJson
  | _ => none

/-- A task whose null fields carry the Go zero payload — the shape of every
row scanned from the store and of every task built by the DTO conversions. -/
def Task.normalized (t : Task) : Bool :=
  (t.description.valid || t.description.string == "") &&
    (t.assignee.valid || t.assignee.string == "") &&
    (t.dueDate.valid || t.dueDate.time == 0)

/-- The redis cache contents: an association list from keys to cached JSON. -/
abbrev Cache := List (String × Json)

/-- redis GET: the value under the key, if present. -/
def cacheGet : Cache → String → Option Json
  | [], _ => none
  | (k, v) :: rest, key => if k = key then some v else cacheGet rest key

/-- redis SET: upsert the value under the key. -/
def cacheSet (c : Cache) (k : String) (v : Json) : Cache :=
  (k, v) :: c.filter (fun kv => !(kv.1 == k))

/-- A redis key matches the glob pattern `tasks:list:*`. -/
def matchesListPattern (k : String) : Bool :=
  "tasks:list:".data.isPrefixOf k.data

/-- The `taskRepo` state: the `tasks` table rows and the optional redis
client's contents (`nil` when no cache is attached). -/
structure RepoState where
  db : List Task
  rdb : Option Cache

/-- `fmt.Sprintf("%v", b)` for a Go bool. -/
def boolVal (b : Bool) : String :=
  if b then "true" else "false"

/-- `fmt.Sprintf("%d", n)` for a natural: its decimal digits, most
significant first (`"0"` for zero). -/
def natDecimal (n : Nat) : String :=
  if n = 0 then "0" else ⟨((Nat.digits 10 n).reverse.map Nat.digitChar)⟩

/-- `fmt.Sprintf("%d", i)` for a Go int: a minus sign before the decimal
digits when negative. -/
def intDecimal : Int → String
  | .ofNat n => natDecimal n
  | .negSucc n => "-" ++ natDecimal (n + 1)

/-- `taskRepo.cacheKeyForList`: serialize the four list inputs into the
cache key; an absent filter serializes as `any`. -/
def cacheKeyForList (limit offset : Int) (completed : Option Bool)
    (assignee : Option String) : String :=
  "tasks:list:limit=" ++ intDecimal limit ++ ":offset=" ++ intDecimal offset ++
    ":completed=" ++
    (match completed with
      | none => "any"
      | some b => boolVal b) ++
    ":assignee=" ++
    (match assignee with
      | none => "any"
      | some a => a)

/-- `taskRepo.invalidateListCache`: a no-op without a cache client;
otherwise SCAN the `tasks:list:*` pattern and DEL every matching key. -/
def invalidateListCache (s : RepoState) : RepoState :=
  match s.rdb with
  | none => s
  | some c => { s with rdb := some (c.filter (fun kv => !matchesListPattern kv.1)) }

/-- `taskRepo.Create`: assign a fresh id when the task carries none, set
both timestamps to now, INSERT the row, then invalidate the list cache.
The Go nil-task and DB-error returns are not modelled (see the header). -/
def repoCreate (s : RepoState) (task : Task) (genId : String) (now : Int) :
    Task × RepoState :=
  let task := if task.id = "" then { task with id := genId } else task
  let task := { task with createdAt := now, updatedAt := now }
  (task, invalidateListCache { s with db := s.db ++ [task] })

/-- `taskRepo.GetByID`: SELECT the row by id; `ErrNotFound` on no rows. -/
def repoGetByID (s : RepoState) (id : String) : Except Err Task :=
  match s.db.find? (fun t => t.id == id) with
  | some t => .ok t
  | none => .error .notFound

/-- The SQL predicate `assignee = $1`: NULL compares as no match. -/
def assigneeEq (t : Task) (a : String) : Bool :=
  t.assignee.valid && t.assignee.string == a

/-- The four WHERE shapes of `taskRepo.List`: no filter, completed only,
assignee only, both; an empty-string assignee filter is treated as absent. -/
def listWhere (rows : List Task) (completed : Option Bool)
    (assignee : Option String) : List Task :=
  match completed, assignee with
  | none, none => rows
  | none, some a =>
    if a = "" then rows else rows.filter (fun t => assigneeEq t a)
  | some c, none => rows.filter (fun t => t.completed == c)
  | some c, some a =>
    if a = "" then rows.filter (fun t => t.completed == c)
    else rows.filter (fun t => t.completed == c && assigneeEq t a)

/-- `ORDER BY created_at DESC`: most recent creation first. -/
def sortByCreatedDesc (rows : List Task) : List Task :=
  rows.insertionSort (fun a b => b.createdAt ≤ a.createdAt)

/-- The DB query of `taskRepo.List`: clamp `limit`/`offset` (a non-positive
limit defaults to 100, a negative offset to 0), apply the WHERE filters,
ORDER BY created_at DESC, OFFSET, LIMIT. -/
def repoListDB (rows : List Task) (limit offset : Int) (completed : Option Bool)
    (assignee : Option String) : List Task :=
  let limit := if limit ≤ 0 then 100 else limit
  let offset := if offset < 0 then 0 else offset
  (((sortByCreatedDesc (listWhere rows completed assignee)).drop
    offset.toNat).take limit.toNat)

/-- `taskRepo.List`: cache-aside.  Try the cache first (key from the raw,
unclamped inputs); on a hit that unmarshals, return it without touching the
store.  On a miss, an unmarshal failure, or no cache client, query the DB
and then populate the cache (when a client is attached). -/
def repoList (s : RepoState) (limit offset : Int) (completed : Option Bool)
    (assignee : Option String) : List Task × RepoState :=
  let cacheKey := cacheKeyForList limit offset completed assignee
  let hit : Option (List Task) := match s.rdb with
    | none => none
    | some c =>
      match cacheGet c cacheKey with
      | none => none
      | some j => decodeTasks j
  match hit with
  | some cached => (cached, s)
  | none =>
    let tasks := repoListDB s.db limit offset completed assignee
    let s' := match s.rdb with
      | none => s
      | some c => { s with rdb := some (cacheSet c cacheKey (encodeTasks tasks)) }
    (tasks, s')

/-- `taskRepo.Update`: `UPDATE tasks SET title, description, completed,
due_date, updated_at WHERE id` — `assignee` and `created_at` are not in the
SET list; `updated_at` becomes now (the application sets it, and the DB
trigger keeps it current on UPDATE).  `ErrNotFound` when no row is
affected; on success the list cache is invalidated. -/
def repoUpdate (s : RepoState) (task : Task) (now : Int) :
    Except Err RepoState :=
  if s.db.any (fun t => t.id == task.id) then
    .ok (invalidateListCache { s with db := s.db.map (fun t =>
      if t.id == task.id then
        { t with title := task.title, description := task.description,
                 completed := task.completed, dueDate := task.dueDate,
                 updatedAt := now }
      else t) })
  else .error .notFound

/-- `taskRepo.Delete`: DELETE the row, report whether a row was removed,
and invalidate the list cache only when one was. -/
def repoDelete (s : RepoState) (id : String) : Bool × RepoState :=
  let deleted := s.db.any (fun t => t.id == id)
  let s' := { s with db := s.db.filter (fun t => !(t.id == id)) }
  (deleted, if deleted then invalidateListCache s' else s')

/-- `taskRepo.Count`: `SELECT count(1) FROM tasks`. -/
def repoCount (rows : List Task) : Nat :=
  rows.length

/-- `taskRepo.CountFiltered`: the four count query shapes, mirroring the
filter semantics of `taskRepo.List` (an empty-string assignee filter is
treated as absent). -/
def countFiltered (rows : List Task) (completed : Option Bool)
    (assignee : Option String) : Nat :=
  match completed, assignee with
  | none, none => rows.length
  | none, some a =>
    if a = "" then rows.length
    else (rows.filter (fun t => assigneeEq t a)).length
  | some c, none => (rows.filter (fun t => t.completed == c)).length
  | some c, some a =>
    if a = "" then (rows.filter (fun t => t.completed == c)).length
    else (rows.filter (fun t => t.completed == c && assigneeEq t a)).length

/-- `taskService.Create`: trim the title; `ErrInvalidInput` when the trimmed
title is empty, before the store is touched; otherwise delegate to the
repository (the metrics gauge increment is outside the modelled state). -/
def serviceCreate (s : RepoState) (task : Task) (genId : String) (now : Int) :
    Except Err (Task × RepoState) :=
  let task := { task with title := trimSpace task.title }
  if task.title = "" then .error .invalidInput
  else .ok (repoCreate s task genId now)

/-- `taskService.GetByID`: pass-through to the repository. -/
def serviceGetByID (s : RepoState) (id : String) : Except Err Task :=
  repoGetByID s id

/-- `taskService.List`: the page from `repo.List` plus the matching total
from `repo.CountFiltered`. -/
def serviceList (s : RepoState) (limit offset : Int) (completed : Option Bool)
    (assignee : Option String) : (List Task × Nat) × RepoState :=
  let (tasks, s') := repoList s limit offset completed assignee
  let total := countFiltered s'.db completed assignee
  ((tasks, total), s')

/-- `taskService.Update`: load the current record by id; when the incoming
partial task carries a non-empty title, trim it (`ErrInvalidInput` when the
trim empties it) and replace the loaded title; persist the loaded record;
re-read and return the persisted row. -/
def serviceUpdate (s : RepoState) (task : Task) (now : Int) :
    Except Err (Task × RepoState) :=
  match repoGetByID s task.id with
  | .error e => .error e
  | .ok t =>
    match
      (if task.title ≠ "" then
        (if trimSpace task.title = "" then Except.error Err.invalidInput
         else .ok { t with title := trimSpace task.title })
      else .ok t) with
    | .error e => .error e
    | .ok t =>
      match repoUpdate s t now with
      | .error e => .error e
      | .ok s' =>
        match repoGetByID s' task.id with
        | .error e => .error e
        | .ok updated => .ok (updated, s')

/-- `taskService.Delete`: delegate to the repository; `ErrNotFound` when no
row was removed (the metrics gauge decrement is outside the modelled
state). -/
def serviceDelete (s : RepoState) (id : String) : Except Err RepoState :=
  let (ok, s') := repoDelete s id
  if ok then .ok s' else .error .notFound

/-- `taskService.Count`: pass-through to the repository. -/
def serviceCount (s : RepoState) : Nat :=
  repoCount s.db

/-- One inbound request reaching the service, as the handler dispatches it:
creates and updates carry their DTO (converted with `ToModel`) and the
server-side now; the generated UUID of a create is a parameter. -/
inductive Op where
  | create (dto : CreateTaskDTO) (genId : String) (now : Int)
  | update (id : String) (dto : UpdateTaskDTO) (now : Int)
  | delete (id : String)
  | list (limit offset : Int) (completed : Option Bool) (assignee : Option String)

/-- Execute one request against the state; a failed request leaves the
state as it was. -/
def execOp (s : RepoState) : Op → RepoState
  | .create dto genId now =>
    match serviceCreate s dto.toModel genId now with
    | .ok (_, s') => s'
    | .error _ => s
  | .update id dto now =>
    match serviceUpdate s (dto.toModel id) now with
    | .ok (_, s') => s'
    | .error _ => s
  | .delete id =>
    match serviceDelete s id with
    | .ok s' => s'
    | .error _ => s
  | .list limit offset completed assignee =>
    (repoList s limit offset completed assignee).2

/-- Execute a request sequence, oldest first. -/
def execOps (s : RepoState) (ops : List Op) : RepoState :=
  ops.foldl execOp s

/-- The server clock never runs backwards: each create/update in the
sequence carries a now at least the previous one (and at least the given
lower bound). -/
def clockedFrom (n : Int) : List Op → Bool
  | [] => true
  | .create _ _ now :: rest => decide (n ≤ now) && clockedFrom now rest
  | .update _ _ now :: rest => decide (n ≤ now) && clockedFrom now rest
  | .delete _ :: rest => clockedFrom n rest
  | .list _ _ _ _ :: rest => clockedFrom n rest

/-- What a redis GET through the repository's optional cache client
observes: nothing when no client is attached, the cached value otherwise. -/
def cacheLookup (s : RepoState) (k : String) : Option Json :=
  match s.rdb with
  | none => none
  | some c => cacheGet c k

/-! ### Concrete fixtures used by witnesses and counterexamples -/

/-- A stored task with every nullable field set, used as concrete input. -/
def fixtureTask : Task :=
  { id := "a", title := "old", description := ⟨"d", true⟩,
    assignee := ⟨"bob", true⟩, completed := false, dueDate := ⟨5, true⟩,
    createdAt := 1, updatedAt := 1 }

/-- A store holding `fixtureTask`, with no cache client attached. -/
def fixtureState : RepoState :=
  { db := [fixtureTask], rdb := none }

/-- The same store with a cache client holding one stale list entry. -/
def fixtureCacheState : RepoState :=
  { db := [fixtureTask], rdb := some [("tasks:list:seed", Json.null)] }

/-- An update request providing only `{completed: true}`. -/
def dtoOnlyCompleted : UpdateTaskDTO :=
  ⟨none, none, none, some true, none⟩

/-- An update request providing explicit empty strings for `description`
and `assignee`. -/
def dtoClearBoth : UpdateTaskDTO :=
  ⟨none, some "", some "", none, none⟩

/-- The task the service returns for the `dtoOnlyCompleted` update of
`fixtureTask` (the re-read persisted row). -/
def c1Updated : Task :=
  match serviceUpdate fixtureState (dtoOnlyCompleted.toModel "a") 7 with
  | .ok (u, _) => u
  | .error _ => Task.zero

/-- The state after the `dtoOnlyCompleted` update of `fixtureTask`. -/
def c1StateAfter : RepoState :=
  match serviceUpdate fixtureState (dtoOnlyCompleted.toModel "a") 7 with
  | .ok (_, s) => s
  | .error _ => fixtureState

/-- The task the service returns for the `dtoClearBoth` update of
`fixtureTask` (the re-read persisted row). -/
def c7Updated : Task :=
  match serviceUpdate fixtureState (dtoClearBoth.toModel "a") 7 with
  | .ok (u, _) => u
  | .error _ => Task.zero

/-- The state after the `dtoClearBoth` update of `fixtureTask`. -/
def c7StateAfter : RepoState :=
  match serviceUpdate fixtureState (dtoClearBoth.toModel "a") 7 with
  | .ok (_, s) => s
  | .error _ => fixtureState

/-- The state after deleting the fixture task from the cache-attached
fixture store. -/
def c2StateAfter : RepoState :=
  match serviceDelete fixtureCacheState "a" with
  | .ok s => s
  | .error _ => fixtureCacheState

/-! ### Helper lemmas: the shape of a successful service update -/

/-- `invalidateListCache` never changes the table rows. -/
theorem invalidateListCache_db (s : RepoState) :
    (invalidateListCache s).db = s.db := by
  unfold invalidateListCache
  cases s.rdb <;> rfl

/-- Mapping an id-preserving function over rows commutes with looking a row
up by id. -/
theorem find?_map_id_pres (g : Task → Task) (hg : ∀ t, (g t).id = t.id)
    (rows : List Task) (i : String) :
    (rows.map g).find? (fun t => t.id == i) =
      (rows.find? (fun t => t.id == i)).map g := by
  induction rows with
  | nil => rfl
  | cons r rest ih =>
    simp only [List.map_cons, List.find?_cons, hg r]
    cases h : (r.id == i) with
    | true => rfl
    | false => exact ih

/-- A successful lookup means some row carries the id. -/
theorem any_of_find?_ok {s : RepoState} {i : String} {t0 : Task}
    (h : repoGetByID s i = .ok t0) :
    s.db.any (fun t => t.id == i) = true := by
  unfold repoGetByID at h
  cases hf : s.db.find? (fun t => t.id == i) with
  | none => rw [hf] at h; exact absurd h (by simp)
  | some t =>
    rw [hf] at h
    have hp := List.find?_some hf
    exact List.any_eq_true.mpr ⟨t, List.mem_of_find?_eq_some hf, hp⟩

/-- The row a successful lookup returns carries the requested id. -/
theorem id_of_find?_ok {s : RepoState} {i : String} {t0 : Task}
    (h : repoGetByID s i = .ok t0) : t0.id = i := by
  unfold repoGetByID at h
  cases hf : s.db.find? (fun t => t.id == i) with
  | none => rw [hf] at h; exact absurd h (by simp)
  | some t =>
    rw [hf] at h
    have ht : t = t0 := by injection h
    subst ht
    have hp := List.find?_some hf
    simpa using hp

/-- The full shape of a successful update whose request carries no title:
the loaded record is persisted unchanged except for `updated_at`, and the
re-read row is returned.  The request's `description`, `assignee`,
`completed` and `due_date` do not appear: the service never merges them. -/
theorem serviceUpdate_noTitle_eq (s : RepoState) (task : Task) (now : Int)
    (t0 : Task) (h : repoGetByID s task.id = .ok t0)
    (ht : task.title = "") :
    serviceUpdate s task now =
      .ok ({ t0 with updatedAt := now },
        invalidateListCache { s with db := s.db.map (fun t =>
          if t.id == task.id then
            { t with title := t0.title, description := t0.description,
                     completed := t0.completed, dueDate := t0.dueDate,
                     updatedAt := now }
          else t) }) := by
  have hid : t0.id = task.id := id_of_find?_ok h
  have hany : s.db.any (fun t => t.id == task.id) = true := any_of_find?_ok h
  have hre : repoGetByID
      (invalidateListCache { s with db := s.db.map (fun t =>
        if t.id == task.id then
          { t with title := t0.title, description := t0.description,
                   completed := t0.completed, dueDate := t0.dueDate,
                   updatedAt := now }
        else t) }) task.id = .ok { t0 with updatedAt := now } := by
    unfold repoGetByID
    rw [invalidateListCache_db]
    rw [find?_map_id_pres _ (fun t => by split <;> rfl)]
    unfold repoGetByID at h
    cases hf : s.db.find? (fun t => t.id == task.id) with
    | none => rw [hf] at h; exact absurd h (by simp)
    | some t =>
      rw [hf] at h
      have ht' : t = t0 := by injection h
      subst ht'
      have hpred := List.find?_some hf
      simp [hpred]
      exact fun hc => absurd hid hc
  unfold serviceUpdate
  rw [h]
  simp only [ht, ne_eq, not_true_eq_false, if_false]
  unfold repoUpdate
  rw [hid, hany]
  simp only [if_true, hre]
  simp only [hid]

/-- The shape of a successful update whose request carries a non-empty
title with a non-empty trim: only the title (trimmed) and `updated_at`
change on the loaded record. -/
theorem serviceUpdate_someTitle_eq (s : RepoState) (task : Task) (now : Int)
    (t0 : Task) (h : repoGetByID s task.id = .ok t0)
    (ht : task.title ≠ "") (htt : trimSpace task.title ≠ "") :
    serviceUpdate s task now =
      .ok ({ t0 with title := trimSpace task.title, updatedAt := now },
        invalidateListCache { s with db := s.db.map (fun t =>
          if t.id == task.id then
            { t with title := trimSpace task.title,
                     description := t0.description,
                     completed := t0.completed, dueDate := t0.dueDate,
                     updatedAt := now }
          else t) }) := by
  have hid : t0.id = task.id := id_of_find?_ok h
  have hany : s.db.any (fun t => t.id == task.id) = true := any_of_find?_ok h
  have hre : repoGetByID
      (invalidateListCache { s with db := s.db.map (fun t =>
        if t.id == task.id then
          { t with title := trimSpace task.title,
                   description := t0.description,
                   completed := t0.completed, dueDate := t0.dueDate,
                   updatedAt := now }
        else t) }) task.id =
      .ok { t0 with title := trimSpace task.title, updatedAt := now } := by
    unfold repoGetByID
    rw [invalidateListCache_db]
    rw [find?_map_id_pres _ (fun t => by split <;> rfl)]
    unfold repoGetByID at h
    cases hf : s.db.find? (fun t => t.id == task.id) with
    | none => rw [hf] at h; exact absurd h (by simp)
    | some t =>
      rw [hf] at h
      have ht' : t = t0 := by injection h
      subst ht'
      have hpred := List.find?_some hf
      simp [hpred]
      exact fun hc => absurd hid hc
  unfold serviceUpdate
  rw [h]
  simp only [ht, ne_eq, not_false_eq_true, if_true, htt, if_false]
  unfold repoUpdate
  simp only [hid, hany, if_true, hre]

/-- An update whose request carries a non-empty title that trims to empty
fails with `ErrInvalidInput` (after the existence check). -/
theorem serviceUpdate_badTitle_eq (s : RepoState) (task : Task) (now : Int)
    (t0 : Task) (h : repoGetByID s task.id = .ok t0)
    (ht : task.title ≠ "") (htt : trimSpace task.title = "") :
    serviceUpdate s task now = .error .invalidInput := by
  unfold serviceUpdate
  rw [h]
  simp only [ht, ne_eq, not_false_eq_true, if_true, htt, if_false]

/-- Whatever a successful update merges, the persisted and returned record
keeps the loaded record's `description`, `assignee`, `completed` and
`due_date`: the service merges only the title. -/
theorem serviceUpdate_ok_fields (s : RepoState) (task : Task) (now : Int)
    (t0 u : Task) (s' : RepoState) (h : repoGetByID s task.id = .ok t0)
    (hok : serviceUpdate s task now = .ok (u, s')) :
    u.description = t0.description ∧ u.assignee = t0.assignee ∧
      u.completed = t0.completed ∧ u.dueDate = t0.dueDate := by
  by_cases ht : task.title = ""
  · rw [serviceUpdate_noTitle_eq s task now t0 h ht] at hok
    injection hok with hp
    have h1 := congrArg Prod.fst hp
    dsimp only at h1
    subst h1
    exact ⟨rfl, rfl, rfl, rfl⟩
  · by_cases htt : trimSpace task.title = ""
    · rw [serviceUpdate_badTitle_eq s task now t0 h ht htt] at hok
      exact absurd hok (by simp)
    · rw [serviceUpdate_someTitle_eq s task now t0 h ht htt] at hok
      injection hok with hp
      have h1 := congrArg Prod.fst hp
      dsimp only at h1
      subst h1
      exact ⟨rfl, rfl, rfl, rfl⟩

/-- The DTO conversion keeps the requested id on the partial task. -/
theorem toModel_id (d : UpdateTaskDTO) (id : String) :
    (d.toModel id).id = id := by
  unfold UpdateTaskDTO.toModel Task.setDescription Task.clearDescription
    Task.setAssignee Task.setDueDate
  cases d.title <;> cases d.description <;> cases d.assignee <;>
    cases d.completed <;> cases d.dueDate <;> dsimp only <;>
    repeat' first | split | rfl

/-- A create whose title trims to empty fails before the store is touched. -/
theorem serviceCreate_invalid_eq (s : RepoState) (task : Task) (genId : String)
    (now : Int) (h : trimSpace task.title = "") :
    serviceCreate s task genId now = .error .invalidInput := by
  unfold serviceCreate
  simp only [h, if_true]

/-- A create whose title trims non-empty persists and returns the task with
exactly the trimmed title, appended to the store rows. -/
theorem serviceCreate_ok_eq (s : RepoState) (task : Task) (genId : String)
    (now : Int) (h : trimSpace task.title ≠ "") :
    ∃ t s', serviceCreate s task genId now = .ok (t, s') ∧
      t.title = trimSpace task.title ∧ s'.db = s.db ++ [t] := by
  unfold serviceCreate
  simp only [h, if_false]
  refine ⟨(repoCreate s { task with title := trimSpace task.title } genId now).1,
    (repoCreate s { task with title := trimSpace task.title } genId now).2,
    rfl, ?_, ?_⟩
  · unfold repoCreate
    dsimp only
    split <;> rfl
  · unfold repoCreate
    dsimp only
    rw [invalidateListCache_db]

/-- C4.  For every create request the title is trimmed before validation and
persistence: when the trimmed title is empty the service fails with
`InvalidInput` without invoking the store create (no state is produced);
otherwise the task is persisted (appended to the store) and returned with
exactly the trimmed title.  In particular `" x "` persists as `"x"`, and
`""` and `"   "` trim to empty. -/
theorem create_title_validation :
    (∀ (s : RepoState) (task : Task) (genId : String) (now : Int),
      trimSpace task.title = "" →
      serviceCreate s task genId now = .error .invalidInput) ∧
    (∀ (s : RepoState) (task : Task) (genId : String) (now : Int),
      trimSpace task.title ≠ "" →
      ∃ t s', serviceCreate s task genId now = .ok (t, s') ∧
        t.title = trimSpace task.title ∧ s'.db = s.db ++ [t]) ∧
    trimSpace " x " = "x" ∧ trimSpace "   " = "" ∧ trimSpace "" = "" :=
  ⟨serviceCreate_invalid_eq, serviceCreate_ok_eq, rfl, rfl, rfl⟩

/-- Witness for C4: concrete create requests with titles `"   "` and
`" x "` against the fixture store. -/
theorem create_title_validation_witness :
    (serviceCreate fixtureState { Task.zero with title := "   " } "g" 3 =
      .error .invalidInput) ∧
    (∃ t s', serviceCreate fixtureState { Task.zero with title := " x " }
        "g" 3 = .ok (t, s') ∧ t.title = trimSpace " x " ∧
      s'.db = fixtureState.db ++ [t]) :=
  ⟨create_title_validation.1 fixtureState _ "g" 3 (by decide),
   create_title_validation.2.1 fixtureState _ "g" 3 (by decide)⟩

/-- C5.  An update addressed to an id no stored row carries fails with
`NotFound`, for every payload (the existence check precedes title
validation, so even otherwise-invalid payloads get `NotFound`). -/
theorem update_missing_id_notFound :
    ∀ (s : RepoState) (dto : UpdateTaskDTO) (id : String) (now : Int),
      (∀ t ∈ s.db, t.id ≠ id) →
      serviceUpdate s (dto.toModel id) now = .error .notFound := by
  intro s dto id now hno
  have hfind : s.db.find? (fun t => t.id == id) = none :=
    List.find?_eq_none.mpr (fun t ht => by simpa using hno t ht)
  unfold serviceUpdate
  rw [toModel_id, ]
  unfold repoGetByID
  rw [hfind]

/-- Witness for C5: an update with a whitespace-only title (an otherwise
invalid payload) against an empty store still reports `NotFound`. -/
theorem update_missing_id_notFound_witness :
    serviceUpdate { db := [], rdb := none }
      ((UpdateTaskDTO.mk (some "   ") none none (some true) none).toModel
        "missing") 9 = .error .notFound :=
  update_missing_id_notFound { db := [], rdb := none }
    (UpdateTaskDTO.mk (some "   ") none none (some true) none) "missing" 9
    (by intro t ht; cases ht)

/-- C6.  An update whose payload provides only `{completed: b}` leaves the
persisted record's `title`, `description`, `assignee` and `due_date` each
equal to its value before the update. -/
theorem update_only_completed_frame :
    ∀ (s : RepoState) (id : String) (t0 : Task) (b : Bool) (now : Int),
      repoGetByID s id = .ok t0 →
      ∃ u s', serviceUpdate s
          ((UpdateTaskDTO.mk none none none (some b) none).toModel id) now =
          .ok (u, s') ∧
        u.title = t0.title ∧ u.description = t0.description ∧
        u.assignee = t0.assignee ∧ u.dueDate = t0.dueDate := by
  intro s id t0 b now h
  have hm : ((UpdateTaskDTO.mk none none none (some b) none).toModel id) =
      { Task.zero with id := id, completed := b } := rfl
  refine ⟨_, _, serviceUpdate_noTitle_eq s _ now t0 h rfl, ?_, ?_, ?_, ?_⟩ <;> rfl

/-- Witness for C6: the fixture task updated with `{completed: true}` keeps
its title, description, assignee and due date. -/
theorem update_only_completed_frame_witness :
    ∃ u s', serviceUpdate fixtureState
        ((UpdateTaskDTO.mk none none none (some true) none).toModel "a") 7 =
        .ok (u, s') ∧
      u.title = fixtureTask.title ∧ u.description = fixtureTask.description ∧
      u.assignee = fixtureTask.assignee ∧ u.dueDate = fixtureTask.dueDate :=
  update_only_completed_frame fixtureState "a" fixtureTask true 7 rfl

/-- C1 (divergence evaluated on the embedded code): the update request
provides `{completed: true}` for the stored, uncompleted fixture task; the
service loads the record, merges nothing but the title, and persists —
the returned and persisted record still has `completed = false`.  Only the
title path of the claimed merge exists in the service. -/
theorem update_drops_completed_eval :
    serviceUpdate fixtureState (dtoOnlyCompleted.toModel "a") 7 =
      .ok (c1Updated, c1StateAfter) ∧
    dtoOnlyCompleted.completed = some true ∧
    fixtureTask.completed = false ∧
    c1Updated.completed = false ∧
    (∀ t ∈ c1StateAfter.db, t.completed = false) :=
  ⟨rfl, rfl, rfl, rfl, by decide⟩

/-- C7 counterexample: the claim's comparison asserts that an explicit
empty-string `description` clears the stored description to null.  Against
the fixture task (description `⟨"d", true⟩`) an update providing both
`description: ""` and `assignee: ""` succeeds, yet the persisted
description is still `⟨"d", true⟩` — set, not null: the service drops the
description field of the request entirely. -/
theorem update_empty_description_still_set :
    serviceUpdate fixtureState (dtoClearBoth.toModel "a") 7 =
      .ok (c7Updated, c7StateAfter) ∧
    dtoClearBoth.description = some "" ∧
    dtoClearBoth.assignee = some "" ∧
    fixtureTask.description = ⟨"d", true⟩ ∧
    c7Updated.description = ⟨"d", true⟩ :=
  ⟨rfl, rfl, rfl, rfl, rfl⟩

/-- C7 (amended).  An update request providing `assignee` as the explicit
empty string leaves the persisted assignee unchanged (still the prior
value, not null).  The asymmetry with `description` exists only in the DTO
conversion — a present empty description routes the clear into the partial
model (null there), a present empty assignee routes nothing — but the
service merges neither onto the loaded record, so the persisted
description is likewise left unchanged. -/
theorem assignee_empty_string_preserved :
    (∀ (s : RepoState) (id : String) (t0 : Task) (dto : UpdateTaskDTO)
        (now : Int) (u : Task) (s' : RepoState),
      repoGetByID s id = .ok t0 → dto.assignee = some "" →
      serviceUpdate s (dto.toModel id) now = .ok (u, s') →
      u.assignee = t0.assignee) ∧
    (∀ (dto : UpdateTaskDTO) (id : String), dto.description = some "" →
      (dto.toModel id).description = ⟨"", false⟩) ∧
    (∀ (s : RepoState) (id : String) (t0 : Task) (dto : UpdateTaskDTO)
        (now : Int) (u : Task) (s' : RepoState),
      repoGetByID s id = .ok t0 → dto.description = some "" →
      serviceUpdate s (dto.toModel id) now = .ok (u, s') →
      u.description = t0.description) := by
  refine ⟨?_, ?_, ?_⟩
  · intro s id t0 dto now u s' h _ hok
    have h' : repoGetByID s (dto.toModel id).id = .ok t0 := by
      rw [toModel_id]; exact h
    exact (serviceUpdate_ok_fields s _ now t0 u s' h' hok).2.1
  · intro dto id hd
    obtain ⟨t, d, a, c, dd⟩ := dto
    cases hd
    unfold UpdateTaskDTO.toModel Task.setDescription Task.clearDescription
      Task.setAssignee Task.setDueDate
    cases t <;> cases a <;> cases c <;> cases dd <;> dsimp only <;>
      repeat' first | split | rfl | simp_all
  · intro s id t0 dto now u s' h _ hok
    have h' : repoGetByID s (dto.toModel id).id = .ok t0 := by
      rw [toModel_id]; exact h
    exact (serviceUpdate_ok_fields s _ now t0 u s' h' hok).1

/-- Witness for the amended C7: the fixture update providing empty-string
assignee and description leaves both fields as they were. -/
theorem assignee_empty_string_preserved_witness :
    c7Updated.assignee = fixtureTask.assignee ∧
    c7Updated.description = fixtureTask.description :=
  ⟨assignee_empty_string_preserved.1 fixtureState "a" fixtureTask dtoClearBoth
      7 c7Updated c7StateAfter rfl rfl rfl,
   assignee_empty_string_preserved.2.2 fixtureState "a" fixtureTask dtoClearBoth
      7 c7Updated c7StateAfter rfl rfl rfl⟩

/-- C8.  `CountFiltered` applies the same four-case filter semantics as
`List` (no filter / completed-only / assignee-only / both, with an
empty-string assignee treated as no filter) and equals the number of stored
rows matching the filters; in particular the completed-only count equals
the length of the unbounded list query (filter plus ORDER BY, no
limit/offset) for `completed = true`. -/
theorem countFiltered_matches_list :
    (∀ (rows : List Task) (completed : Option Bool) (assignee : Option String),
      countFiltered rows completed assignee =
        (listWhere rows completed assignee).length) ∧
    (∀ rows : List Task,
      countFiltered rows (some true) none =
        (sortByCreatedDesc (listWhere rows (some true) none)).length) := by
  have h1 : ∀ (rows : List Task) (completed : Option Bool)
      (assignee : Option String),
      countFiltered rows completed assignee =
        (listWhere rows completed assignee).length := by
    intro rows c a
    unfold countFiltered listWhere
    cases c <;> cases a <;> dsimp only <;> (split_ifs <;> rfl)
  refine ⟨h1, fun rows => ?_⟩
  rw [h1]
  unfold sortByCreatedDesc
  exact ((List.perm_insertionSort _ _).length_eq).symm

/-- A successful create appends exactly the returned task, whose two
timestamps are both the server-side now. -/
theorem serviceCreate_ok_db (s : RepoState) (task : Task) (genId : String)
    (now : Int) (t : Task) (s' : RepoState)
    (hok : serviceCreate s task genId now = .ok (t, s')) :
    s'.db = s.db ++ [t] ∧ t.createdAt = now ∧ t.updatedAt = now := by
  unfold serviceCreate at hok
  by_cases h : trimSpace task.title = ""
  · simp only [h, if_true] at hok
    exact absurd hok (by simp)
  · simp only [h, if_false] at hok
    injection hok with hp
    have h1 := congrArg Prod.fst hp
    have h2 := congrArg Prod.snd hp
    dsimp only at h1 h2
    subst h1
    subst h2
    refine ⟨?_, rfl, rfl⟩
    unfold repoCreate
    dsimp only
    rw [invalidateListCache_db]

/-- Every row of a successful update's store is either an untouched old row
or an old row with `updated_at` refreshed to the server-side now and
`created_at` kept. -/
theorem serviceUpdate_ok_mem (s : RepoState) (task : Task) (now : Int)
    (u : Task) (s' : RepoState)
    (hok : serviceUpdate s task now = .ok (u, s')) :
    ∀ r ∈ s'.db, r ∈ s.db ∨
      ∃ t ∈ s.db, r.createdAt = t.createdAt ∧ r.updatedAt = now := by
  cases hg : repoGetByID s task.id with
  | error e =>
    unfold serviceUpdate at hok
    rw [hg] at hok
    exact absurd hok (by simp)
  | ok t0 =>
    have hmem : ∀ (ttl : String),
        ∀ r ∈ (invalidateListCache { s with db := s.db.map (fun t =>
          if t.id == task.id then
            { t with title := ttl, description := t0.description,
                     completed := t0.completed, dueDate := t0.dueDate,
                     updatedAt := now }
          else t) }).db,
        r ∈ s.db ∨
          ∃ t ∈ s.db, r.createdAt = t.createdAt ∧ r.updatedAt = now := by
      intro ttl r hr
      rw [invalidateListCache_db] at hr
      dsimp only at hr
      obtain ⟨t, htm, hrt⟩ := List.mem_map.mp hr
      subst hrt
      by_cases hc : (t.id == task.id) = true
      · rw [if_pos hc]
        exact Or.inr ⟨t, htm, rfl, rfl⟩
      · rw [if_neg hc]
        exact Or.inl htm
    by_cases ht : task.title = ""
    · rw [serviceUpdate_noTitle_eq s task now t0 hg ht] at hok
      injection hok with hp
      have h2 := congrArg Prod.snd hp
      dsimp only at h2
      subst h2
      exact hmem t0.title
    · by_cases htt : trimSpace task.title = ""
      · rw [serviceUpdate_badTitle_eq s task now t0 hg ht htt] at hok
        exact absurd hok (by simp)
      · rw [serviceUpdate_someTitle_eq s task now t0 hg ht htt] at hok
        injection hok with hp
        have h2 := congrArg Prod.snd hp
        dsimp only at h2
        subst h2
        exact hmem (trimSpace task.title)

/-- A successful delete keeps a subset of the old rows. -/
theorem serviceDelete_ok_mem (s : RepoState) (id : String) (s' : RepoState)
    (hok : serviceDelete s id = .ok s') :
    ∀ r ∈ s'.db, r ∈ s.db := by
  unfold serviceDelete repoDelete at hok
  dsimp only at hok
  split at hok
  · injection hok with hp
    subst hp
    intro r hr
    rw [invalidateListCache_db] at hr
    dsimp only at hr
    exact List.mem_of_mem_filter hr
  · exact absurd hok (by simp)

/-- `List` never changes the table rows (only the cache). -/
theorem repoList_db (s : RepoState) (limit offset : Int)
    (completed : Option Bool) (assignee : Option String) :
    ((repoList s limit offset completed assignee).2).db = s.db := by
  unfold repoList
  dsimp only
  repeat' split
  all_goals rfl

/-- Along any request sequence with a non-decreasing server clock, every
stored row keeps `created_at ≤ updated_at ≤ clock`. -/
theorem execOps_timesOK :
    ∀ (ops : List Op) (s : RepoState) (n : Int),
      (∀ t ∈ s.db, t.createdAt ≤ t.updatedAt ∧ t.updatedAt ≤ n) →
      clockedFrom n ops = true →
      ∃ m, n ≤ m ∧ ∀ t ∈ (execOps s ops).db,
        t.createdAt ≤ t.updatedAt ∧ t.updatedAt ≤ m := by
  intro ops
  induction ops with
  | nil =>
    intro s n hs _
    exact ⟨n, le_refl n, hs⟩
  | cons op rest ih =>
    intro s n hs hc
    cases op with
    | create dto genId now =>
      have hc' : n ≤ now ∧ clockedFrom now rest = true := by
        simpa [clockedFrom] using hc
      have hstep : ∀ t ∈ (execOp s (.create dto genId now)).db,
          t.createdAt ≤ t.updatedAt ∧ t.updatedAt ≤ now := by
        unfold execOp
        dsimp only
        cases hres : serviceCreate s dto.toModel genId now with
        | error e =>
          exact fun t htm => ⟨(hs t htm).1, le_trans (hs t htm).2 hc'.1⟩
        | ok p =>
          obtain ⟨t1, s1⟩ := p
          obtain ⟨hdb, hca, hua⟩ := serviceCreate_ok_db s _ genId now t1 s1 hres
          intro t htm
          rw [hdb] at htm
          rcases List.mem_append.mp htm with hold | hnew
          · exact ⟨(hs t hold).1, le_trans (hs t hold).2 hc'.1⟩
          · have ht1 : t = t1 := by simpa using hnew
            subst ht1
            rw [hca, hua]
            exact ⟨le_refl now, le_refl now⟩
      obtain ⟨m, hm1, hm2⟩ := ih _ now hstep hc'.2
      exact ⟨m, le_trans hc'.1 hm1, hm2⟩
    | update id dto now =>
      have hc' : n ≤ now ∧ clockedFrom now rest = true := by
        simpa [clockedFrom] using hc
      have hstep : ∀ t ∈ (execOp s (.update id dto now)).db,
          t.createdAt ≤ t.updatedAt ∧ t.updatedAt ≤ now := by
        unfold execOp
        dsimp only
        cases hres : serviceUpdate s (dto.toModel id) now with
        | error e =>
          exact fun t htm => ⟨(hs t htm).1, le_trans (hs t htm).2 hc'.1⟩
        | ok p =>
          obtain ⟨u, s1⟩ := p
          intro t htm
          rcases serviceUpdate_ok_mem s _ now u s1 hres t htm with hold | hupd
          · exact ⟨(hs t hold).1, le_trans (hs t hold).2 hc'.1⟩
          · obtain ⟨t2, ht2, hca, hua⟩ := hupd
            rw [hca, hua]
            refine ⟨le_trans (hs t2 ht2).1 (le_trans (hs t2 ht2).2 hc'.1),
              le_refl now⟩
      obtain ⟨m, hm1, hm2⟩ := ih _ now hstep hc'.2
      exact ⟨m, le_trans hc'.1 hm1, hm2⟩
    | delete id =>
      have hc' : clockedFrom n rest = true := by simpa [clockedFrom] using hc
      have hstep : ∀ t ∈ (execOp s (.delete id)).db,
          t.createdAt ≤ t.updatedAt ∧ t.updatedAt ≤ n := by
        unfold execOp
        dsimp only
        cases hres : serviceDelete s id with
        | error e => exact hs
        | ok s1 =>
          exact fun t htm => hs t (serviceDelete_ok_mem s id s1 hres t htm)
      exact ih _ n hstep hc'
    | list limit offset completed assignee =>
      have hc' : clockedFrom n rest = true := by simpa [clockedFrom] using hc
      have hstep : ∀ t ∈ (execOp s (.list limit offset completed assignee)).db,
          t.createdAt ≤ t.updatedAt ∧ t.updatedAt ≤ n := by
        unfold execOp
        dsimp only
        rw [repoList_db]
        exact hs
      exact ih _ n hstep hc'

/-- C9.  Timestamps are server-controlled: starting from an empty store,
any sequence of requests executed with a non-decreasing server clock keeps
`created_at ≤ updated_at` on every stored (hence reachable) task; and the
store's create and update ignore whatever `created_at`/`updated_at` an
inbound task carries (both are overwritten from the server clock; the
create and update DTOs have no timestamp fields at all). -/
theorem timestamps_server_controlled :
    (∀ (rdb : Option Cache) (n : Int) (ops : List Op),
      clockedFrom n ops = true →
      ∀ t ∈ (execOps { db := [], rdb := rdb } ops).db,
        t.createdAt ≤ t.updatedAt) ∧
    (∀ (s : RepoState) (task : Task) (genId : String) (now ca ua : Int),
      repoCreate s { task with createdAt := ca, updatedAt := ua } genId now =
        repoCreate s task genId now) ∧
    (∀ (s : RepoState) (task : Task) (now ca ua : Int),
      repoUpdate s { task with createdAt := ca, updatedAt := ua } now =
        repoUpdate s task now) := by
  refine ⟨?_, ?_, ?_⟩
  · intro rdb n ops hc
    obtain ⟨m, _, hm⟩ := execOps_timesOK ops { db := [], rdb := rdb } n
      (by intro t ht; cases ht) hc
    exact fun t htm => (hm t htm).1
  · intro s task genId now ca ua
    unfold repoCreate
    by_cases hid : task.id = "" <;> simp [hid]
  · intro s task now ca ua
    rfl

/-- Witness for C9: a concrete clocked create/update/delete run from the
empty store keeps `created_at ≤ updated_at` everywhere. -/
theorem timestamps_server_controlled_witness :
    clockedFrom 0 [Op.create ⟨" a ", none, none, none⟩ "g1" 5,
      Op.update "g1" ⟨some "b", none, none, some true, none⟩ 9,
      Op.delete "zzz"] = true ∧
    (∀ t ∈ (execOps { db := [], rdb := none }
        [Op.create ⟨" a ", none, none, none⟩ "g1" 5,
         Op.update "g1" ⟨some "b", none, none, some true, none⟩ 9,
         Op.delete "zzz"]).db,
      t.createdAt ≤ t.updatedAt) :=
  ⟨by decide,
   timestamps_server_controlled.1 none 0
     [Op.create ⟨" a ", none, none, none⟩ "g1" 5,
      Op.update "g1" ⟨some "b", none, none, some true, none⟩ 9,
      Op.delete "zzz"] (by decide)⟩

/-- After the pattern delete, no key of the `tasks:list:*` namespace
remains in the cache. -/
theorem cacheGet_filter_not_matching (c : Cache) (k : String)
    (h : matchesListPattern k = true) :
    cacheGet (c.filter (fun kv => !matchesListPattern kv.1)) k = none := by
  induction c with
  | nil => rfl
  | cons kv rest ih =>
    obtain ⟨k', v⟩ := kv
    by_cases hm : matchesListPattern k' = true
    · simpa [List.filter_cons, hm] using ih
    · have hne : ¬(k' = k) := fun he => hm (he ▸ h)
      simpa [List.filter_cons, hm, cacheGet, hne] using ih

/-- `invalidateListCache` removes the whole `tasks:list:*` namespace. -/
theorem invalidate_noListKeys (s : RepoState) (k : String)
    (h : matchesListPattern k = true) :
    cacheLookup (invalidateListCache s) k = none := by
  obtain ⟨db, rdb⟩ := s
  unfold invalidateListCache cacheLookup
  cases rdb with
  | none => rfl
  | some c =>
    dsimp only
    exact cacheGet_filter_not_matching c k h

/-- Every string of the cache key's shape lies in the `tasks:list:*`
namespace, whatever the four serialized components are. -/
theorem matches_key_shape (sL sO sC sA : String) :
    matchesListPattern ("tasks:list:limit=" ++ sL ++ ":offset=" ++ sO ++
      ":completed=" ++ sC ++ ":assignee=" ++ sA) = true := by
  unfold matchesListPattern
  rw [ List.isPrefixOf_iff_prefix]
  refine ⟨"limit=".data ++ (sL.data ++ (":offset=".data ++ (sO.data ++
    (":completed=".data ++ (sC.data ++ (":assignee=".data ++ sA.data)))))),
    ?_⟩
  simp only [String.data_append, List.append_assoc]
  rw [← List.append_assoc]
  rfl

/-- Every list cache key lies in the `tasks:list:*` namespace. -/
theorem cacheKey_matches (l o : Int) (c : Option Bool) (a : Option String) :
    matchesListPattern (cacheKeyForList l o c a) = true := by
  unfold cacheKeyForList
  exact matches_key_shape _ _ _ _

/-- When the cache holds nothing under the list key, `List` answers from
the DB query over the current rows. -/
theorem repoList_miss (s : RepoState) (l o : Int) (c : Option Bool)
    (a : Option String)
    (h : cacheLookup s (cacheKeyForList l o c a) = none) :
    (repoList s l o c a).1 = repoListDB s.db l o c a := by
  obtain ⟨db, rdb⟩ := s
  unfold repoList
  unfold cacheLookup at h
  cases rdb with
  | none => rfl
  | some cch =>
    dsimp only at h
    dsimp only
    rw [h]

/-- A state with no cached list entries answers every list query from the
DB over its rows. -/
theorem listReflects_of_noList (s' : RepoState)
    (h : ∀ k, matchesListPattern k = true → cacheLookup s' k = none) :
    ∀ (l o : Int) (c : Option Bool) (a : Option String),
      (repoList s' l o c a).1 = repoListDB s'.db l o c a :=
  fun l o c a => repoList_miss s' l o c a (h _ (cacheKey_matches l o c a))

/-- A successful create leaves no `tasks:list:*` key in the cache. -/
theorem serviceCreate_ok_noList (s : RepoState) (task : Task)
    (genId : String) (now : Int) (t : Task) (s' : RepoState)
    (hok : serviceCreate s task genId now = .ok (t, s')) :
    ∀ k, matchesListPattern k = true → cacheLookup s' k = none := by
  unfold serviceCreate at hok
  by_cases h : trimSpace task.title = ""
  · simp only [h, if_true] at hok
    exact absurd hok (by simp)
  · simp only [h, if_false] at hok
    injection hok with hp
    have h2 := congrArg Prod.snd hp
    dsimp only at h2
    subst h2
    intro k hk
    unfold repoCreate
    dsimp only
    exact invalidate_noListKeys _ k hk

/-- A successful update leaves no `tasks:list:*` key in the cache. -/
theorem serviceUpdate_ok_noList (s : RepoState) (task : Task) (now : Int)
    (u : Task) (s' : RepoState)
    (hok : serviceUpdate s task now = .ok (u, s')) :
    ∀ k, matchesListPattern k = true → cacheLookup s' k = none := by
  cases hg : repoGetByID s task.id with
  | error e =>
    unfold serviceUpdate at hok
    rw [hg] at hok
    exact absurd hok (by simp)
  | ok t0 =>
    by_cases ht : task.title = ""
    · rw [serviceUpdate_noTitle_eq s task now t0 hg ht] at hok
      injection hok with hp
      have h2 := congrArg Prod.snd hp
      dsimp only at h2
      subst h2
      exact fun k hk => invalidate_noListKeys _ k hk
    · by_cases htt : trimSpace task.title = ""
      · rw [serviceUpdate_badTitle_eq s task now t0 hg ht htt] at hok
        exact absurd hok (by simp)
      · rw [serviceUpdate_someTitle_eq s task now t0 hg ht htt] at hok
        injection hok with hp
        have h2 := congrArg Prod.snd hp
        dsimp only at h2
        subst h2
        exact fun k hk => invalidate_noListKeys _ k hk

/-- A successful delete leaves no `tasks:list:*` key in the cache. -/
theorem serviceDelete_ok_noList (s : RepoState) (id : String)
    (s' : RepoState) (hok : serviceDelete s id = .ok s') :
    ∀ k, matchesListPattern k = true → cacheLookup s' k = none := by
  unfold serviceDelete repoDelete at hok
  dsimp only at hok
  split at hok
  · injection hok with hp
    subst hp
    exact fun k hk => invalidate_noListKeys _ k hk
  · exact absurd hok (by simp)

/-- C2.  After any successful create, update or delete, the returned state
holds no cached entry under any `tasks:list:*` key (the whole list-cache
namespace is flushed before the operation returns), and therefore a
subsequent list call with any limit/offset/filter combination bypasses the
cache and answers from the post-write store rows. -/
theorem write_invalidates_list_cache :
    (∀ (s : RepoState) (task : Task) (genId : String) (now : Int)
        (t : Task) (s' : RepoState),
      serviceCreate s task genId now = .ok (t, s') →
      (∀ k, matchesListPattern k = true → cacheLookup s' k = none) ∧
      ∀ (l o : Int) (c : Option Bool) (a : Option String),
        (repoList s' l o c a).1 = repoListDB s'.db l o c a) ∧
    (∀ (s : RepoState) (task : Task) (now : Int) (u : Task) (s' : RepoState),
      serviceUpdate s task now = .ok (u, s') →
      (∀ k, matchesListPattern k = true → cacheLookup s' k = none) ∧
      ∀ (l o : Int) (c : Option Bool) (a : Option String),
        (repoList s' l o c a).1 = repoListDB s'.db l o c a) ∧
    (∀ (s : RepoState) (id : String) (s' : RepoState),
      serviceDelete s id = .ok s' →
      (∀ k, matchesListPattern k = true → cacheLookup s' k = none) ∧
      ∀ (l o : Int) (c : Option Bool) (a : Option String),
        (repoList s' l o c a).1 = repoListDB s'.db l o c a) := by
  refine ⟨?_, ?_, ?_⟩
  · intro s task genId now t s' hok
    have hn := serviceCreate_ok_noList s task genId now t s' hok
    exact ⟨hn, listReflects_of_noList s' hn⟩
  · intro s task now u s' hok
    have hn := serviceUpdate_ok_noList s task now u s' hok
    exact ⟨hn, listReflects_of_noList s' hn⟩
  · intro s id s' hok
    have hn := serviceDelete_ok_noList s id s' hok
    exact ⟨hn, listReflects_of_noList s' hn⟩

/-- Witness for C2: deleting the fixture task from the cache-attached store
flushes its stale `tasks:list:seed` entry, and the next list answers from
the store rows. -/
theorem write_invalidates_list_cache_witness :
    cacheLookup c2StateAfter "tasks:list:seed" = none ∧
    (repoList c2StateAfter 5 0 none none).1 =
      repoListDB c2StateAfter.db 5 0 none none :=
  ⟨(write_invalidates_list_cache.2.2 fixtureCacheState "a" c2StateAfter
      rfl).1 "tasks:list:seed" (by decide),
   (write_invalidates_list_cache.2.2 fixtureCacheState "a" c2StateAfter
      rfl).2 5 0 none none⟩

/-- Round trip of one normalized task through the cache serialization. -/
theorem task_roundtrip (t : Task) (h : t.normalized = true) :
    Task.fromJson t.toJson = some t := by
  obtain ⟨id, title, ⟨ds, dv⟩, ⟨asg, av⟩, c, ⟨dt, dtv⟩, ca, ua⟩ := t
  unfold Task.normalized at h
  dsimp only at h
  simp only [Bool.and_eq_true, Bool.or_eq_true, beq_iff_eq] at h
  obtain ⟨⟨hd, ha⟩, hdd⟩ := h
  cases dv <;> cases av <;> cases dtv <;>
    simp_all [Task.toJson, Task.fromJson, NullString.toJson,
      NullString.fromJson, NullTime.toJson, NullTime.fromJson]

/-- Round trip of a list of normalized tasks. -/
theorem tasks_roundtrip (ts : List Task)
    (h : ∀ t ∈ ts, t.normalized = true) :
    decodeTasks (encodeTasks ts) = some ts := by
  unfold decodeTasks encodeTasks
  induction ts with
  | nil => rfl
  | cons t rest ih =>
    simp only [List.map_cons, List.mapM_cons]
    rw [task_roundtrip t (h t (List.mem_cons_self t rest))]
    have hrest := ih (fun x hx => h x (List.mem_cons_of_mem t hx))
    simp only [List.map_cons, List.mapM_cons] at hrest ⊢
    simp_all [Option.bind]

/-- Rows answered by the DB list query all come from the table. -/
theorem repoListDB_subset (rows : List Task) (l o : Int) (c : Option Bool)
    (a : Option String) :
    ∀ t ∈ repoListDB rows l o c a, t ∈ rows := by
  intro t ht
  unfold repoListDB at ht
  dsimp only at ht
  have h1 := List.take_subset _ _ ht
  have h2 := List.drop_subset _ _ h1
  unfold sortByCreatedDesc at h2
  have h3 := (List.perm_insertionSort _ _).mem_iff.mp h2
  unfold listWhere at h3
  cases c <;> cases a <;> dsimp only at h3
  · exact h3
  · split at h3
    · exact h3
    · exact List.mem_of_mem_filter h3
  · exact List.mem_of_mem_filter h3
  · split at h3 <;> exact List.mem_of_mem_filter h3

/-- redis SET then GET on the same key observes the written value. -/
theorem cacheGet_set_self (c : Cache) (k : String) (v : Json) :
    cacheGet (cacheSet c k v) k = some v := by
  unfold cacheSet cacheGet
  simp

/-- Listing twice with the same inputs answers the same page: a hit repeats
the hit, and a miss populates the cache with exactly what it returned,
which the second call deserializes back. -/
theorem repoList_idem (s : RepoState) (l o : Int) (c : Option Bool)
    (a : Option String) (h : ∀ t ∈ s.db, t.normalized = true) :
    (repoList (repoList s l o c a).2 l o c a).1 = (repoList s l o c a).1 := by
  obtain ⟨db, rdb⟩ := s
  have hnorm : ∀ t ∈ repoListDB db l o c a, t.normalized = true :=
    fun t ht => h t (repoListDB_subset db l o c a t ht)
  have hdec : decodeTasks (encodeTasks (repoListDB db l o c a)) =
      some (repoListDB db l o c a) := tasks_roundtrip _ hnorm
  unfold repoList
  cases rdb with
  | none => rfl
  | some cch =>
    dsimp only
    cases hget : cacheGet cch (cacheKeyForList l o c a) with
    | some j =>
      cases hj : decodeTasks j with
      | some cached => simp [hget, hj]
      | none => simp [hget, hj, cacheGet_set_self, hdec]
    | none => simp [hget, cacheGet_set_self, hdec]

/-- C10.  Serialize-then-deserialize is the identity on the task lists the
list operation caches (every stored row is normalized — null fields carry
zero payloads — and round-trips field for field, including the null/set
states of description, assignee and due_date); hence a repeated list call
with the same inputs returns a list equal to the one originally computed
from the store. -/
theorem cache_roundtrip :
    (∀ ts : List Task, (∀ t ∈ ts, t.normalized = true) →
      decodeTasks (encodeTasks ts) = some ts) ∧
    (∀ (s : RepoState) (l o : Int) (c : Option Bool) (a : Option String),
      (∀ t ∈ s.db, t.normalized = true) →
      (repoList (repoList s l o c a).2 l o c a).1 =
        (repoList s l o c a).1) :=
  ⟨tasks_roundtrip, repoList_idem⟩

/-- Witness for C10: the fixture task round-trips, and listing the
cache-attached fixture store twice answers the same page. -/
theorem cache_roundtrip_witness :
    decodeTasks (encodeTasks [fixtureTask]) = some [fixtureTask] ∧
    (repoList (repoList fixtureCacheState 5 0 none none).2 5 0 none none).1 =
      (repoList fixtureCacheState 5 0 none none).1 :=
  ⟨cache_roundtrip.1 [fixtureTask] (by decide),
   cache_roundtrip.2 fixtureCacheState 5 0 none none (by decide)⟩

/-- `Nat.digitChar` of a decimal digit is one of the ten digit characters. -/
theorem digitChar_isDigit {d : Nat} (h : d < 10) :
    (Nat.digitChar d).isDigit = true := by
  interval_cases d <;> decide

/-- `Nat.digitChar` is injective on decimal digits. -/
theorem digitChar_inj_lt {d₁ d₂ : Nat} (h₁ : d₁ < 10) (h₂ : d₂ < 10)
    (h : Nat.digitChar d₁ = Nat.digitChar d₂) : d₁ = d₂ := by
  interval_cases d₁ <;> interval_cases d₂ <;>
    first
    | rfl
    | exact absurd h (by decide)

/-- A digit character is not a colon. -/
theorem isDigit_ne_colon {ch : Char} (h : ch.isDigit = true) : ch ≠ ':' :=
  fun he => absurd (he ▸ h) (by decide)

/-- A digit character is not a minus sign. -/
theorem isDigit_ne_minus {ch : Char} (h : ch.isDigit = true) : ch ≠ '-' :=
  fun he => absurd (he ▸ h) (by decide)

/-- Every character of a natural's decimal form is a digit. -/
theorem natDecimal_chars (n : Nat) :
    ∀ ch ∈ (natDecimal n).data, ch.isDigit = true := by
  unfold natDecimal
  split
  · intro ch hch
    have : ch = '0' := by simpa using hch
    subst this
    decide
  · intro ch hch
    obtain ⟨d, hd, he⟩ := List.mem_map.mp hch
    subst he
    exact digitChar_isDigit
      (Nat.digits_lt_base (by norm_num) (List.mem_reverse.mp hd))

/-- Equal character data means equal strings. -/
theorem string_data_inj : ∀ {s t : String}, s.data = t.data → s = t := by
  intro s t h
  cases s
  cases t
  exact congrArg String.mk h

/-- Decimal forms of naturals are injective. -/
theorem natDecimal_inj : ∀ {n m : Nat}, natDecimal n = natDecimal m → n = m := by
  have hzero : ∀ m : Nat, m ≠ 0 → natDecimal 0 = natDecimal m → False := by
    intro m hm h
    unfold natDecimal at h
    rw [if_pos rfl, if_neg hm] at h
    have hd := congrArg String.data h
    have hone : (Nat.digits 10 m).reverse.map Nat.digitChar = ['0'] := hd.symm
    cases hrev : (Nat.digits 10 m).reverse with
    | nil => rw [hrev] at hone; exact absurd hone (by simp)
    | cons d rest =>
      rw [hrev] at hone
      simp only [List.map_cons, List.cons.injEq, List.map_eq_nil_iff] at hone
      obtain ⟨hdc, hrest⟩ := hone
      subst hrest
      have hdig : Nat.digits 10 m = [d] := by
        have := congrArg List.reverse hrev
        simpa using this
      have hdmem : d ∈ Nat.digits 10 m := by rw [hdig]; exact List.mem_cons_self d []
      have hdlt : d < 10 := Nat.digits_lt_base (by norm_num) hdmem
      have hd0 : d = 0 := digitChar_inj_lt hdlt (by norm_num) hdc
      subst hd0
      have := Nat.ofDigits_digits 10 m
      rw [hdig] at this
      simp [Nat.ofDigits] at this
      exact hm this.symm
  intro n m h
  by_cases hn : n = 0 <;> by_cases hm : m = 0
  · rw [hn, hm]
  · exact absurd (hzero m hm (hn ▸ h)) not_false
  · exact absurd (hzero n hn (hm ▸ h.symm)) not_false
  · unfold natDecimal at h
    rw [if_neg hn, if_neg hm] at h
    have hd : (Nat.digits 10 n).reverse.map Nat.digitChar =
        (Nat.digits 10 m).reverse.map Nat.digitChar := congrArg String.data h
    have hmap : ∀ (l₁ : List Nat), ∀ {l₂ : List Nat},
        (∀ x ∈ l₁, x < 10) → (∀ x ∈ l₂, x < 10) →
        l₁.map Nat.digitChar = l₂.map Nat.digitChar → l₁ = l₂ := by
      intro l₁
      induction l₁ with
      | nil =>
        intro l₂ _ _ hmap
        cases l₂ with
        | nil => rfl
        | cons y ys => exact absurd hmap (by simp)
      | cons x xs ih =>
        intro l₂ hx hy hmap
        cases l₂ with
        | nil => exact absurd hmap (by simp)
        | cons y ys =>
          simp only [List.map_cons, List.cons.injEq] at hmap
          rw [digitChar_inj_lt (hx x (List.mem_cons_self x xs))
            (hy y (List.mem_cons_self y ys)) hmap.1,
            ih (fun z hz => hx z (List.mem_cons_of_mem x hz))
              (fun z hz => hy z (List.mem_cons_of_mem y hz)) hmap.2]
    have hrev : (Nat.digits 10 n).reverse = (Nat.digits 10 m).reverse :=
      hmap _ (fun x hx => Nat.digits_lt_base (by norm_num)
          (List.mem_reverse.mp hx))
        (fun x hx => Nat.digits_lt_base (by norm_num)
          (List.mem_reverse.mp hx)) hd
    have : Nat.digits 10 n = Nat.digits 10 m := by
      have := congrArg List.reverse hrev
      simpa using this
    exact Nat.digits_inj_iff.mp this

/-- Every character of an int's decimal form differs from the colon. -/
theorem intDecimal_ne_colon (i : Int) :
    ∀ ch ∈ (intDecimal i).data, ch ≠ ':' := by
  cases i with
  | ofNat n => exact fun ch h => isDigit_ne_colon (natDecimal_chars n ch h)
  | negSucc n =>
    intro ch h
    rw [show intDecimal (Int.negSucc n) = "-" ++ natDecimal (n + 1) from rfl,
      String.data_append] at h
    rcases List.mem_append.mp h with h1 | h2
    · have : ch = '-' := by simpa using h1
      subst this
      decide
    · exact isDigit_ne_colon (natDecimal_chars (n + 1) ch h2)

/-- Decimal forms of Go ints are injective. -/
theorem intDecimal_inj : ∀ {i j : Int}, intDecimal i = intDecimal j → i = j := by
  have hcross : ∀ (n m : Nat), natDecimal n = "-" ++ natDecimal (m + 1) → False := by
    intro n m h
    have hd := congrArg String.data h
    rw [String.data_append] at hd
    have hm : '-' ∈ (natDecimal n).data := by
      rw [hd]
      exact List.mem_append_left _ (by decide)
    exact absurd rfl (isDigit_ne_minus (natDecimal_chars n '-' hm))
  intro i j h
  cases i with
  | ofNat n =>
    cases j with
    | ofNat m => exact congrArg Int.ofNat (natDecimal_inj h)
    | negSucc m => exact absurd (hcross n m h) not_false
  | negSucc n =>
    cases j with
    | ofNat m => exact absurd (hcross m n h.symm) not_false
    | negSucc m =>
      have hd := congrArg String.data h
      rw [show intDecimal (Int.negSucc n) = "-" ++ natDecimal (n + 1) from rfl,
        show intDecimal (Int.negSucc m) = "-" ++ natDecimal (m + 1) from rfl,
        String.data_append, String.data_append] at hd
      have : (natDecimal (n + 1)).data = (natDecimal (m + 1)).data :=
        List.append_cancel_left hd
      have hnm := natDecimal_inj (string_data_inj this)
      exact congrArg Int.negSucc (by omega)

/-- Splitting at the first colon: when neither head segment contains a
colon, equality of the concatenations forces equality of both parts. -/
theorem sep_split : ∀ (a₁ : List Char) {a₂ b₁ b₂ : List Char},
    (∀ ch ∈ a₁, ch ≠ ':') → (∀ ch ∈ a₂, ch ≠ ':') →
    a₁ ++ ':' :: b₁ = a₂ ++ ':' :: b₂ → a₁ = a₂ ∧ b₁ = b₂ := by
  intro a₁
  induction a₁ with
  | nil =>
    intro a₂ b₁ b₂ _ h₂ h
    cases a₂ with
    | nil => simpa using h
    | cons c t =>
      simp only [List.nil_append, List.cons_append, List.cons.injEq] at h
      exact absurd h.1.symm (h₂ c (List.mem_cons_self c t))
  | cons c t ih =>
    intro a₂ b₁ b₂ h₁ h₂ h
    cases a₂ with
    | nil =>
      simp only [List.cons_append, List.nil_append, List.cons.injEq] at h
      exact absurd h.1 (h₁ c (List.mem_cons_self c t))
    | cons c' t' =>
      simp only [List.cons_append, List.cons.injEq] at h
      obtain ⟨hc, hrest⟩ := h
      obtain ⟨ht, hb⟩ := ih (fun ch hch => h₁ ch (List.mem_cons_of_mem c hch))
        (fun ch hch => h₂ ch (List.mem_cons_of_mem c' hch)) hrest
      exact ⟨by rw [hc, ht], hb⟩

/-- Equality of two cache keys forces equality of all four serialized
components, provided the completed components are colon-free (the
limit/offset components are decimal forms, colon-free by construction; the
assignee component is the final segment and needs no restriction). -/
theorem key_components_inj (l₁ o₁ l₂ o₂ : Int) (cv₁ cv₂ av₁ av₂ : String)
    (hc₁ : ∀ ch ∈ cv₁.data, ch ≠ ':') (hc₂ : ∀ ch ∈ cv₂.data, ch ≠ ':')
    (h : "tasks:list:limit=" ++ intDecimal l₁ ++ ":offset=" ++
        intDecimal o₁ ++ ":completed=" ++ cv₁ ++ ":assignee=" ++ av₁ =
      "tasks:list:limit=" ++ intDecimal l₂ ++ ":offset=" ++
        intDecimal o₂ ++ ":completed=" ++ cv₂ ++ ":assignee=" ++ av₂) :
    l₁ = l₂ ∧ o₁ = o₂ ∧ cv₁ = cv₂ ∧ av₁ = av₂ := by
  have hd := congrArg String.data h
  simp only [String.data_append, List.append_assoc, List.cons_append,
    List.nil_append, List.cons.injEq, true_and] at hd
  obtain ⟨hL, hd₂⟩ := sep_split _ (intDecimal_ne_colon l₁)
    (intDecimal_ne_colon l₂) hd
  simp only [List.cons.injEq, true_and] at hd₂
  obtain ⟨hO, hd₃⟩ := sep_split _ (intDecimal_ne_colon o₁)
    (intDecimal_ne_colon o₂) hd₂
  simp only [List.cons.injEq, true_and] at hd₃
  obtain ⟨hC, hd₄⟩ := sep_split _ hc₁ hc₂ hd₃
  simp only [List.cons.injEq, true_and] at hd₄
  exact ⟨intDecimal_inj (string_data_inj hL),
    intDecimal_inj (string_data_inj hO),
    string_data_inj hC, string_data_inj hd₄⟩

/-- The completed component is colon-free for every filter value. -/
theorem compVal_ne_colon (c : Option Bool) :
    ∀ ch ∈ (match c with
      | none => "any"
      | some b => boolVal b : String).data, ch ≠ ':' := by
  cases c with
  | none => decide
  | some b => cases b <;> decide

/-- The completed component is injective: `any`, `true` and `false` are
pairwise distinct serializations. -/
theorem compVal_inj (c₁ c₂ : Option Bool)
    (h : (match c₁ with
      | none => "any"
      | some b => boolVal b : String) =
      (match c₂ with
      | none => "any"
      | some b => boolVal b : String)) : c₁ = c₂ := by
  cases c₁ with
  | none =>
    cases c₂ with
    | none => rfl
    | some b => cases b <;> exact absurd h (by decide)
  | some b =>
    cases c₂ with
    | none => cases b <;> exact absurd h (by decide)
    | some b₂ =>
      cases b <;> cases b₂ <;>
        first
        | rfl
        | exact absurd h (by decide)

/-- The assignee component is injective away from the sentinel collision:
an absent filter and a filter equal to the literal `any` serialize alike,
and those are the only clashes. -/
theorem assVal_inj (a₁ a₂ : Option String)
    (h : (match a₁ with
      | none => "any"
      | some a => a : String) =
      (match a₂ with
      | none => "any"
      | some a => a : String))
    (ha₁ : a₁ ≠ some "any") (ha₂ : a₂ ≠ some "any") : a₁ = a₂ := by
  cases a₁ with
  | none =>
    cases a₂ with
    | none => rfl
    | some a =>
      have ha : a = "any" := h.symm
      exact absurd (congrArg some ha) ha₂
  | some a =>
    cases a₂ with
    | none =>
      have ha : a = "any" := h
      exact absurd (congrArg some ha) ha₁
    | some a₂ =>
      have ha : a = a₂ := h
      rw [ha]

/-- C3 counterexample: the key serializes a present assignee filter equal
to the literal string `any` exactly as an absent assignee filter — two
distinct filter combinations, one key — refuting both the claimed
injectivity and the claimed present/absent distinguishability for every
string. -/
theorem cache_key_any_collision :
    cacheKeyForList 10 0 none (some "any") =
      cacheKeyForList 10 0 none none ∧
    (some "any" : Option String) ≠ (none : Option String) :=
  ⟨rfl, by decide⟩

/-- C3 (amended).  The list cache key is a deterministic function of
`(limit, offset, completedFilter, assigneeFilter)`; the absent-filter
sentinel `any` is distinguishable from both real completed values, and the
key is injective on all combinations whose assignee filter, when present,
is not the literal string `"any"` — that single sentinel collision (an
assignee filter `"any"` versus an absent assignee) is the only exception
to the claimed injectivity. -/
theorem cache_key_injective_amended :
    ∀ (l₁ o₁ : Int) (c₁ : Option Bool) (a₁ : Option String)
      (l₂ o₂ : Int) (c₂ : Option Bool) (a₂ : Option String),
      a₁ ≠ some "any" → a₂ ≠ some "any" →
      cacheKeyForList l₁ o₁ c₁ a₁ = cacheKeyForList l₂ o₂ c₂ a₂ →
      l₁ = l₂ ∧ o₁ = o₂ ∧ c₁ = c₂ ∧ a₁ = a₂ := by
  intro l₁ o₁ c₁ a₁ l₂ o₂ c₂ a₂ ha₁ ha₂ h
  unfold cacheKeyForList at h
  obtain ⟨hL, hO, hCV, hAV⟩ := key_components_inj l₁ o₁ l₂ o₂ _ _ _ _
    (compVal_ne_colon c₁) (compVal_ne_colon c₂) h
  exact ⟨hL, hO, compVal_inj c₁ c₂ hCV, assVal_inj a₁ a₂ hAV ha₁ ha₂⟩

/-- Witness for the amended C3: concrete inputs satisfying the sentinel
side conditions, with the trivially equal keys of equal inputs. -/
theorem cache_key_injective_amended_witness :
    (some "bob" : Option String) ≠ some "any" ∧
    ((1 : Int) = 1 ∧ (2 : Int) = 2 ∧ (some true : Option Bool) = some true ∧
      (some "bob" : Option String) = some "bob") :=
  ⟨by decide,
   cache_key_injective_amended 1 2 (some true) (some "bob") 1 2 (some true)
     (some "bob") (by decide) (by decide) rfl⟩

end TaskManager
